import Mathlib

/-!
Verification development for the delimiter-aware lexical scanner of the
ts2html repository (src/parser.ts).  JavaScript strings are modelled as
lists of characters; JavaScript numeric string offsets are modelled as
integers, with the out-of-range behaviour of `charAt` (returning the empty
string) modelled by an `Option Char` result.  Code that can throw a
`SyntaxError` returns an `Except Nat` value carrying the 1-based line
number of the error; loops of the source that are not structurally
bounded are modelled with an explicit fuel parameter, where a `none`
result means the fuel ran out (the wrappers supply enough fuel for every
terminating run of the source).
-/

/-- JavaScript strings are modelled as lists of characters. -/
abbrev Str := List Char

/-- Model of the JavaScript `charAt` access: out-of-range (including
negative) offsets give the empty string, modelled as `none`. -/
def charAt (s : Str) (i : Int) : Option Char :=
  if i < 0 then none else s.get? i.toNat

/-- The suffix of `s` that a JavaScript scan loop starting at offset `i`
walks over: empty when `i` is negative (since `charAt` then fails at once). -/
def dropInt (s : Str) (i : Int) : Str :=
  if i < 0 then [] else s.drop i.toNat

/-- Clamping of a JavaScript `slice` index, per the ECMAScript rules. -/
def jsSliceIdx (len : Nat) (i : Int) : Nat :=
  if i < 0 then ((len : Int) + i).toNat else min i.toNat len

/-- Model of `String.prototype.slice` with two indices. -/
def jsSlice (s : Str) (a b : Int) : Str :=
  (s.take (jsSliceIdx s.length b)).drop (jsSliceIdx s.length a)

/-- Model of `String.prototype.substr` with a single start argument. -/
def jsSubstr (s : Str) (start : Int) : Str :=
  if start < 0 then s.drop ((s.length + start).toNat) else s.drop start.toNat

/-- The apostrophe quote character, by code point. -/
def squoteCh : Char := Char.ofNat 39

/-- The backtick quote character, by code point. -/
def backtickCh : Char := Char.ofNat 96

/-- JavaScript whitespace characters (the subset relevant to the sources). -/
def isJsWs (c : Char) : Bool :=
  c = ' ' || c = '\t' || c = '\n' || c = '\r' ||
  c = Char.ofNat 11 || c = Char.ofNat 12 || c = Char.ofNat 160 || c = Char.ofNat 65279

/-- Model of `String.prototype.trim`. -/
def jsTrim (l : Str) : Str :=
  ((l.dropWhile isJsWs).reverse.dropWhile isJsWs).reverse

/-- Optionally trim, as the `trim` flag of `split` does. -/
def applyTrim (tr : Bool) (l : Str) : Str :=
  if tr then jsTrim l else l

/-- Model of `String.prototype.indexOf` for a single character: inner walk
over the remaining suffix, carrying the absolute index. -/
def idxGo (c : Char) : Str → Nat → Int
  | [], _ => -1
  | ch :: rest, i => if ch = c then (i : Int) else idxGo c rest (i + 1)

/-- Model of `src.indexOf(ch, from)`; a negative `from` is clamped to 0. -/
def jsIndexOfChar (s : Str) (c : Char) (fromIdx : Int) : Int :=
  idxGo c (s.drop fromIdx.toNat) fromIdx.toNat

/-- Inner walk of `String.prototype.indexOf` for a substring pattern. -/
def subGo (pat : Str) : Str → Nat → Int
  | [], i => if pat.isEmpty then (i : Int) else -1
  | l@(_ :: rest), i => if pat.isPrefixOf l then (i : Int) else subGo pat rest (i + 1)

/-- Model of `hay.indexOf(pat)` for a substring pattern, from offset 0. -/
def jsIndexOfSub (hay pat : Str) : Int := subGo pat hay 0

/-- The search term of the Scanner: a plain character (JavaScript string
term compared with `===`) or a predicate (JavaScript RegExp term). -/
inductive Term where
  | ch : Char → Term
  | pat : (Char → Bool) → Term

/-- The match test of the Scanner loop:
`checkRegExp && term.test(char) || char === term`. -/
def Term.test : Term → Char → Bool
  | .ch c, x => x = c
  | .pat p, x => p x

/-- The non-whitespace pattern `/\S/` used by `getType` and `parseDTS`. -/
def termNonWS : Term := Term.pat (fun c => !(isJsWs c))

/-- The loop of `findClosing` (src/parser.ts lines 166-190): walks the text
just after the opening offset, keeping the count of opened brackets, and
returns the absolute offset where the count reaches zero. -/
def fcGo (o c : Char) : Str → Int → Int → Option Int
  | [], _, _ => none
  | ch :: rest, opened, idx =>
    if ch = o then fcGo o c rest (opened + 1) (idx + 1)
    else if ch = c then
      if opened - 1 ≤ 0 then some idx else fcGo o c rest (opened - 1) (idx + 1)
    else fcGo o c rest opened (idx + 1)

/-- Model of `findClosing(src, offset, brackets)` of src/parser.ts: find the index of
the matching closing bracket; on failure throw a `SyntaxError` carrying the
1-based line of the opening offset (newlines counted from the text start). -/
def findClosing (s : Str) (offset : Int) (o c : Char) : Except Nat Int :=
  match fcGo o c (dropInt s (offset + 1)) 1 (offset + 1) with
  | some r => .ok r
  | none => .error (1 + (s.take offset.toNat).countP (fun ch => ch = '\n'))

/-- The `openString` helper of `goTo` (src/parser.ts lines 88-98): toggle
the currently open quote character, ignoring a quote preceded by a
backslash. -/
def openStringJS (so : Option Char) (ch : Char) (prev : Option Char) : Option Char :=
  if prev = some '\\' then so
  else if so = some ch then none
  else if so = none then some ch
  else so

/-- The loop of `goTo` (src/parser.ts lines 100-129), with explicit fuel.
The quote state `so` is the `stringOpen` variable; note that the bracket
cases of the source switch are not guarded by the quote state. -/
def goToAuxF (s : Str) (t : Term) : Nat → Option Char → Option Char → Int →
    Option (Except Nat Int)
  | fuel, so, prev, off =>
    match charAt s off with
    | none => some (.ok (-1))
    | some ch =>
      match fuel with
      | 0 => none
      | Nat.succ fuel =>
        if so = none ∧ t.test ch then some (.ok off)
        else if ch = '{' then
          match findClosing s off '{' '}' with
          | .error e => some (.error e)
          | .ok r => goToAuxF s t fuel so (some ch) (r + 1)
        else if ch = '[' then
          match findClosing s off '[' ']' with
          | .error e => some (.error e)
          | .ok r => goToAuxF s t fuel so (some ch) (r + 1)
        else if ch = '<' then
          match findClosing s off '<' '>' with
          | .error e => some (.error e)
          | .ok r => goToAuxF s t fuel so (some ch) (r + 1)
        else if ch = '(' then
          match findClosing s off '(' ')' with
          | .error e => some (.error e)
          | .ok r => goToAuxF s t fuel so (some ch) (r + 1)
        else if ch = squoteCh ∨ ch = backtickCh ∨ ch = '"' then
          goToAuxF s t fuel (openStringJS so ch prev) (some ch) (off + 1)
        else goToAuxF s t fuel so (some ch) (off + 1)

/-- Model of `goTo(src, term, offset)` of src/parser.ts: indexOf that skips bracket
regions and quoted strings.  The supplied fuel covers every terminating run
(the scanned offset strictly increases each iteration). -/
def goTo (s : Str) (t : Term) (offset : Int) : Option (Except Nat Int) :=
  goToAuxF s t (s.length + 2) none none offset

/-- The loop of `split` (src/parser.ts lines 142-153), with explicit fuel:
cut the text at each top-level occurrence of the term found by the Scanner,
the final chunk being the suffix after the last occurrence. -/
def splitF (s : Str) (t : Term) (tr : Bool) : Nat → Int → Option (Except Nat (List Str))
  | 0, _ => none
  | Nat.succ fuel, start =>
    match goTo s t start with
    | none => none
    | some (.error e) => some (.error e)
    | some (.ok comma) =>
      if comma = -1 then some (.ok [applyTrim tr (jsSubstr s start)])
      else
        match splitF s t tr fuel (comma + 1) with
        | none => none
        | some (.error e) => some (.error e)
        | some (.ok rest) => some (.ok (applyTrim tr (jsSlice s start comma) :: rest))

/-- Model of `split(src, term, trim)` of src/parser.ts: split by a term, skipping
brackets and strings via the Scanner. -/
def split (s : Str) (t : Term) (tr : Bool) : Option (Except Nat (List Str)) :=
  splitF s t tr (s.length + 2) 0

/-- The walk of `regExpClosestIndexOf` (src/parser.ts lines 201-212) over
the remaining suffix, carrying the absolute index. -/
def rciGo (p : Char → Bool) : Str → Int → Int × Option Char
  | [], _ => (-1, none)
  | ch :: rest, idx => if p ch then (idx, some ch) else rciGo p rest (idx + 1)

/-- Model of `regExpClosestIndexOf(src, term, offset)` of src/parser.ts: first
character matching the class, returning index and the found character
(`(-1, none)` when nothing matches, as the source returns index -1 and
found null). -/
def regExpClosestIndexOf (s : Str) (p : Char → Bool) (offset : Int) : Int × Option Char :=
  rciGo p (dropInt s offset) offset

/-- Model of `getPropertyNoType(src, from, to)` of src/parser.ts (lines 223-227):
split the span on spaces; the last token is the member name and the
preceding tokens are its modifiers. -/
def getPropertyNoType (s : Str) (fromIdx toIdx : Int) : Str × List Str :=
  let parts := (jsSlice s fromIdx toIdx).splitOn ' '
  (parts.getLast?.getD [], parts.dropLast)

/-- Model of `TYPES.IS_PRIMITIVE` of src/parser.ts line 58: a JavaScript substring
check against the literal keyword list (faithful to the `indexOf` use). -/
def IS_PRIMITIVE (t : Str) : Bool :=
  jsIndexOfSub (("boolean|number|string|object").toList) t ≠ -1

/-- Model of `TYPES.IS_IGNORED` of src/parser.ts line 59: a JavaScript substring
check against the literal keyword list (faithful to the `indexOf` use). -/
def IS_IGNORED (t : Str) : Bool :=
  jsIndexOfSub (("void|null|undefined|never").toList) t ≠ -1

/-- First-letter capitalization used by `getType` on primitive results. -/
def capitalizeJS : Str → Str
  | [] => []
  | c :: rest => c.toUpper :: rest

/-- The reducer callback of `getType` (src/parser.ts lines 300-311): the
accumulator is the running result (`none` models the initial null, and an
empty string is falsy exactly like null in the source test `!type`). -/
def typeReduceStep (acc : Option Str) (result : Str) : Option Str :=
  if result = ("Object").toList ∨ acc = none ∨ acc = some [] then some result
  else if IS_IGNORED result then acc
  else if acc ≠ some result then some (("Object").toList)
  else acc

/-- The left-to-right reduction of the member-type list of `getType`. -/
def typeReduce (types : List Str) : Option Str :=
  types.foldl typeReduceStep none

/-- The post-processing of the reduced type in `getType` (lines 312-314):
capitalize the first letter when the result passes `IS_PRIMITIVE`. -/
def finalizeType (t : Option Str) : Option Str :=
  match t with
  | none => none
  | some v => if IS_PRIMITIVE v then some (capitalizeJS v) else some v

/-- The scan loop of `getType` (src/parser.ts lines 248-298), with explicit
fuel (the `"` case of the source can move the cursor backwards on
unterminated string literal types, so the loop is not structurally
bounded).  The result pairs the resolved type with the final cursor. -/
def getTypeLoop (s : Str) : Nat → Int → Int → List Str → Option (Except Nat (Option Str × Int))
  | 0, _, _, _ => none
  | Nat.succ fuel, start, index, types =>
    match charAt s index with
    | none => some (.ok (finalizeType (typeReduce types), index))
    | some ch =>
      if ch = ')' ∨ ch = ',' ∨ ch = ';' then
        let t := jsTrim (jsSlice s start index)
        let types2 := if t.isEmpty then types else types ++ [t]
        some (.ok (finalizeType (typeReduce types2), index))
      else if ch = '{' then
        match findClosing s index '{' '}' with
        | .error e => some (.error e)
        | .ok r => getTypeLoop s fuel (r + 1) (r + 1) (types ++ [("Object").toList])
      else if ch = '[' then
        match findClosing s index '[' ']' with
        | .error e => some (.error e)
        | .ok r => getTypeLoop s fuel (r + 1) (r + 1) (types ++ [("Array").toList])
      else if ch = '<' then
        let t := jsTrim (jsSlice s start index)
        let types2 := if t.isEmpty then types else types ++ [t]
        match findClosing s index '<' '>' with
        | .error e => some (.error e)
        | .ok r =>
          if r = -1 then some (.ok (none, -1))
          else getTypeLoop s fuel (r + 1) (r + 1) types2
      else if ch = '"' then
        let r := jsIndexOfChar s '"' (index + 1)
        getTypeLoop s fuel (r + 1) (r + 1) (types ++ [("String").toList])
      else if ch = '|' ∨ ch = '&' then
        let t := jsTrim (jsSlice s start index)
        let types2 := if t.isEmpty then types else types ++ [t]
        getTypeLoop s fuel (index + 1) (index + 1) types2
      else getTypeLoop s fuel start (index + 1) types

/-- Model of `getType(src, offset)` of src/parser.ts (lines 240-316): resolve a type
expression to a coarse category and report the end cursor. -/
def getType (s : Str) (offset : Int) : Option (Except Nat (Option Str × Int)) :=
  match goTo s termNonWS offset with
  | none => none
  | some (.error e) => some (.error e)
  | some (.ok start) => getTypeLoop s (s.length + 2) start start []

deriving instance DecidableEq for Except

/-- Parameter descriptor of src/parser.ts (`ParamConfig`). -/
structure ParamConfig where
  name : Str
  type : Option Str
deriving DecidableEq, Repr

/-- Field descriptor of src/parser.ts (`FieldConfig`), with the modifier
flags kept as the list of modifier tokens merged by `buildField`. -/
structure FieldConfig where
  name : Str
  modifiers : List Str
  params : Option (List ParamConfig)
  type : Option Str
deriving DecidableEq, Repr

/-- Model of `buildField(mods, name, params, type)` of src/parser.ts (lines 380-389):
params and type are only set when truthy. -/
def buildField (mods : List Str) (name : Str) (params : Option (List ParamConfig))
    (type : Option Str) : FieldConfig :=
  { name := name, modifiers := mods, params := params,
    type := match type with
            | some t => if t.isEmpty then none else some t
            | none => none }

/-- Result record of `parseDTS` (`DTSParsedData` of src/parser.ts). -/
structure DTSParsedData where
  className : Str
  parent : Option Str
  properties : List FieldConfig
  methods : List FieldConfig
deriving DecidableEq, Repr

/-- The errors `parseDTS` can throw: the no-class error of line 403, or the
`SyntaxError` of `findClosing` with its line number. -/
inductive DTSErr where
  | noClassFound : DTSErr
  | mismatched : Nat → DTSErr
deriving DecidableEq, Repr

/-- The loop of `parseParams` (src/parser.ts lines 343-368), with explicit
fuel: cut the span into parameters at `,` and `:` stops, resolving a type
after each `:` via `getType`. -/
def parseParams (s : Str) : Nat → Int → Int → List ParamConfig →
    Option (Except Nat (List ParamConfig))
  | 0, _, _, _ => none
  | Nat.succ fuel, fromIdx, toIdx, acc =>
    if fromIdx < toIdx then
      let fs := regExpClosestIndexOf s (fun ch => ch = ',' || ch = ':') fromIdx
      if fs.1 = -1 then
        some (.ok (acc ++ [{ name := jsTrim (jsSlice s fromIdx toIdx), type := none }]))
      else
        let pname := jsTrim (jsSlice s fromIdx fs.1)
        if fs.2 = some ':' then
          match getType s (fs.1 + 1) with
          | none => none
          | some (.error e) => some (.error e)
          | some (.ok (ty, tyEnd)) =>
            let pty : Option Str :=
              match ty with
              | some tl => if tl.isEmpty then none else some tl
              | none => none
            parseParams s fuel (tyEnd + 1) toIdx (acc ++ [{ name := pname, type := pty }])
        else parseParams s fuel (fs.1 + 1) toIdx (acc ++ [{ name := pname, type := none }])
    else some (.ok acc)

/-- The word characters of the class-header pattern: `[\w$_]`. -/
def isWordDollar (c : Char) : Bool :=
  c.isAlpha || c.isDigit || c = '_' || c = '$'

/-- The optional `(?:[\s]+extends ([^\x7b]+))?` group of the `parseDTS`
header pattern followed by `[\s]*\x7b`, tried with the group present:
returns the index just past the opening brace and the verbatim parent
capture (everything up to the brace, greedy). -/
def tryExtendsClause (s : Str) (k : Nat) : Option (Nat × Option Str) :=
  let wsRun := (s.drop k).takeWhile isJsWs
  if wsRun.isEmpty then none
  else if (("extends ").toList).isPrefixOf (s.drop (k + wsRun.length)) then
    let p := k + wsRun.length + 8
    let par := (s.drop p).takeWhile (fun ch => ch ≠ '{')
    if par.isEmpty then none
    else if s.get? (p + par.length) = some '{' then some (p + par.length + 1, some par)
    else none
  else none

/-- The `parseDTS` header pattern without the extends group: `[\s]*\x7b`
directly after the class name. -/
def tryPlainBody (s : Str) (k : Nat) : Option (Nat × Option Str) :=
  let wsRun := (s.drop k).takeWhile isJsWs
  if s.get? (k + wsRun.length) = some '{' then some (k + wsRun.length + 1, none) else none

/-- One anchored attempt of the header pattern of `parseDTS` (line 401),
`/[\s\n]class ([\w$_]+)(?:[\s]+extends ([^\x7b]+))?[\s]*\x7b/`, at index
`i`: a whitespace character, the literal `class` and a space, a nonempty
run of word characters, then the optional extends clause (falling back to
the plain body when the clause fails, as the regex engine backtracks).
Returns the index just past the opening brace, the class name and the
optional parent capture. -/
def matchClassHeaderAt (s : Str) (i : Nat) : Option (Nat × Str × Option Str) :=
  match s.get? i with
  | none => none
  | some c0 =>
    if isJsWs c0 ∧ (("class ").toList).isPrefixOf (s.drop (i + 1)) then
      let nm := (s.drop (i + 7)).takeWhile isWordDollar
      if nm.isEmpty then none
      else
        match tryExtendsClause s (i + 7 + nm.length) with
        | some (e, par) => some (e, nm, par)
        | none =>
          match tryPlainBody s (i + 7 + nm.length) with
          | some (e, par) => some (e, nm, par)
          | none => none
    else none

/-- Leftmost-match scan of the header pattern, as `String.prototype.match`
performs it: try each start index in order. -/
def headerScan (s : Str) : Str → Nat → Option (Nat × Str × Option Str)
  | [], _ => none
  | _ :: rest, i =>
    match matchClassHeaderAt s i with
    | some r => some r
    | none => headerScan s rest (i + 1)

/-- The header match of `parseDTS`: leftmost match over the whole text. -/
def findClassHeader (s : Str) : Option (Nat × Str × Option Str) :=
  headerScan s s 0

/-- The member loop of `parseDTS` (src/parser.ts lines 414-469), with
explicit fuel.  Each iteration skips whitespace, stops at the class close
brace, finds the next `;`, `:` or `(` stop, reads name and modifiers, and
records a property or a method; the trailing cursor increment of the for
loop is fused into the recursive calls. -/
def parseDTSLoop (s : Str) : Nat → Int → List FieldConfig → List FieldConfig →
    Option (Except Nat (List FieldConfig × List FieldConfig))
  | 0, _, _, _ => none
  | Nat.succ fuel, ptr, props, meths =>
    if ptr < (s.length : Int) then
      match goTo s termNonWS ptr with
      | none => none
      | some (.error e) => some (.error e)
      | some (.ok fromIdx) =>
        if charAt s fromIdx = some '}' then some (.ok (props, meths))
        else
          let st := regExpClosestIndexOf s (fun ch => ch = ';' || ch = ':' || ch = '(') fromIdx
          let pn := getPropertyNoType s fromIdx st.1
          if st.2 = some '(' then
            match findClosing s st.1 '(' ')' with
            | .error e => some (.error e)
            | .ok pend =>
              match parseParams s (s.length + 2) (st.1 + 1) pend [] with
              | none => none
              | some (.error e) => some (.error e)
              | some (.ok params) =>
                let closing := regExpClosestIndexOf s (fun ch => ch = ';' || ch = ':') pend
                let ptr2 := closing.1 + 1
                if closing.2 = some ';' then
                  parseDTSLoop s fuel (ptr2 + 1) props
                    (meths ++ [buildField pn.2 pn.1 (some params) none])
                else
                  match getType s (ptr2 + 1) with
                  | none => none
                  | some (.error e) => some (.error e)
                  | some (.ok (ty, tyEnd)) =>
                    let ptr3 := jsIndexOfChar s ';' tyEnd
                    parseDTSLoop s fuel (ptr3 + 1) props
                      (meths ++ [buildField pn.2 pn.1 (some params) ty])
          else if st.2 = some ';' then
            parseDTSLoop s fuel (st.1 + 1) (props ++ [buildField pn.2 pn.1 none none]) meths
          else
            match getType s (st.1 + 1) with
            | none => none
            | some (.error e) => some (.error e)
            | some (.ok (ty, tyEnd)) =>
              let ptr3 := jsIndexOfChar s ';' tyEnd
              parseDTSLoop s fuel (ptr3 + 1) (props ++ [buildField pn.2 pn.1 none ty]) meths
    else some (.ok (props, meths))

/-- Model of `parseDTS(src)` of src/parser.ts (lines 400-472): match the class
header, then walk the class body collecting property and method
descriptors. -/
def parseDTS (s : Str) : Option (Except DTSErr DTSParsedData) :=
  match findClassHeader s with
  | none => some (.error .noClassFound)
  | some (endPos, cname, par) =>
    match parseDTSLoop s (s.length + 2) (endPos : Int) [] [] with
    | none => none
    | some (.error e) => some (.error (.mismatched e))
    | some (.ok (props, meths)) =>
      some (.ok { className := cname, parent := par, properties := props, methods := meths })

/-- Decorator record of src/parser.ts (`Decorator`): source text, bare
name, raw argument text, and the captured descriptor text. -/
structure Decorator where
  src : Str
  name : Str
  params : Option Str
  descriptor : Str
deriving DecidableEq, Repr

/-- The per-entry destructuring of the decorator loop in
`fieldDecoratorsAnalyzer` (src/parser.ts lines 488-493): the text before
the first `(` is the bare name and the text between the outer parentheses
is the raw argument text (absent when there is no parenthesis). -/
def parseDecor (descriptor : Str) (decor : Str) : Decorator :=
  let ptr := jsIndexOfChar decor '(' 0
  if ptr = -1 then { src := decor, name := decor, params := none, descriptor := descriptor }
  else
    { src := decor, name := jsSlice decor 0 ptr,
      params := some (jsSlice decor (ptr + 1) ((decor.length : Int) - 1)),
      descriptor := descriptor }

/-- The classification loop of `fieldDecoratorsAnalyzer` (lines 487-500):
each decorator goes to the retained list or the recognized-name list by
exact membership of its bare name in `definedAnnotations`. -/
def classifyGo (definedAnns : List Str) (descriptor : Str) :
    List Str → List Decorator × List Decorator
  | [] => ([], [])
  | d :: rest =>
    let p := parseDecor descriptor d
    let r := classifyGo definedAnns descriptor rest
    if definedAnns.contains p.name then (r.1, p :: r.2) else (p :: r.1, r.2)

/-- The replacement text emitted by `fieldDecoratorsAnalyzer` when some
non-recognized decorators remain (line 508): the decoration call is
re-emitted with the retained source texts joined by commas. -/
def decorTemplate (srcs : List Str) (proto name descriptor : Str) : Str :=
  ("\n__decorate([").toList ++ List.intercalate ((",").toList) srcs ++
  ("], ").toList ++ proto ++ (", \"").toList ++ name ++ ("\", ").toList ++
  descriptor ++ (");").toList

/-- The replacer callback of `fieldDecoratorsAnalyzer` (src/parser.ts lines
480-509), taking the captured groups of the decoration-call pattern: the
decorator list text, the prototype text, the field name and the descriptor.
Returns the retained decorators, the recognized ones, and the replacement
text (empty when no decorator is retained). -/
def fieldDecoratorsCallback (definedAnns : List Str)
    (definition proto name descriptor : Str) :
    Option (Except Nat (List Decorator × List Decorator × Str)) :=
  match split (jsTrim definition) (Term.ch ',') true with
  | none => none
  | some (.error e) => some (.error e)
  | some (.ok decors) =>
    let r := classifyGo definedAnns descriptor decors
    let repl :=
      if r.1.isEmpty then ([] : Str)
      else decorTemplate (r.1.map (fun d => d.src)) proto name descriptor
    some (.ok (r.1, r.2, repl))

/-- The replacer callback of `methodsAnalyzer` (src/parser.ts lines
569-572), given the matched boilerplate text and the match offset: find the
first opening brace after the boilerplate, locate its matching close, and
record the trimmed text from just after the boilerplate through the close
brace. -/
def methodBodyCapture (src boiler : Str) (index : Int) : Except Nat Str :=
  match findClosing src (jsIndexOfChar src '{' (index + boiler.length)) '{' '}' with
  | .error e => .error e
  | .ok endIdx => .ok (jsTrim (jsSlice src (index + boiler.length) (endIdx + 1)))

/-- Modelled from the spec: the Delimiter Scanner contract of section 4.1,
in which, while inside a quoted region, every character is skipped except
the matching unescaped quote, so a bracket inside a string literal does
not invoke the Closing-Bracket Locator, and outside quotes brackets are
skipped via the locator and the target test fires.  This is the comparator
for the refinement claim about `goTo`; the code under src is `goTo`. -/
def goToSpecF (s : Str) (t : Term) : Nat → Option Char → Option Char → Int →
    Option (Except Nat Int)
  | fuel, so, prev, off =>
    match charAt s off with
    | none => some (.ok (-1))
    | some ch =>
      match fuel with
      | 0 => none
      | Nat.succ fuel =>
        match so with
        | some q =>
          if prev ≠ some '\\' ∧ ch = q then goToSpecF s t fuel none (some ch) (off + 1)
          else goToSpecF s t fuel (some q) (some ch) (off + 1)
        | none =>
          if t.test ch then some (.ok off)
          else if ch = '{' then
            match findClosing s off '{' '}' with
            | .error e => some (.error e)
            | .ok r => goToSpecF s t fuel none (some ch) (r + 1)
          else if ch = '[' then
            match findClosing s off '[' ']' with
            | .error e => some (.error e)
            | .ok r => goToSpecF s t fuel none (some ch) (r + 1)
          else if ch = '<' then
            match findClosing s off '<' '>' with
            | .error e => some (.error e)
            | .ok r => goToSpecF s t fuel none (some ch) (r + 1)
          else if ch = '(' then
            match findClosing s off '(' ')' with
            | .error e => some (.error e)
            | .ok r => goToSpecF s t fuel none (some ch) (r + 1)
          else if ch = squoteCh ∨ ch = backtickCh ∨ ch = '"' then
            goToSpecF s t fuel (some ch) (some ch) (off + 1)
          else goToSpecF s t fuel none (some ch) (off + 1)

/-- Modelled from the spec: wrapper of the section 4.1 Scanner contract. -/
def goToSpec (s : Str) (t : Term) (offset : Int) : Option (Except Nat Int) :=
  goToSpecF s t (s.length + 2) none none offset

/-- The per-character counter step of the nesting-counter specification of
`findClosing`: +1 on the open character, -1 on the close character. -/
def chDelta (o c ch : Char) : Int :=
  if ch = o then 1 else if ch = c then -1 else 0

/-- The summed counter change over a character list. -/
def deltaSum (o c : Char) (l : Str) : Int :=
  (l.map (chDelta o c)).sum

/-- The nesting-counter specification of the `findClosing` walk over a
character list `l` starting with count `opened` at absolute index `idx`:
`r` is the index of the character at which the counter first reaches 0. -/
def FCSpec (o c : Char) (l : Str) (opened idx r : Int) : Prop :=
  ∃ k : Nat, k < l.length ∧ r = idx + k ∧
    opened + deltaSum o c (l.take (k + 1)) = 0 ∧
    ∀ j : Nat, j < k → opened + deltaSum o c (l.take (j + 1)) ≠ 0

instance (o c : Char) (l : Str) (opened idx r : Int) : Decidable (FCSpec o c l opened idx r) := by
  unfold FCSpec
  infer_instance

/-- The nesting-counter specification of `findClosing`: `r` is the offset
of the matching close for the bracket opened at offset `a` when the counter
(initialized to 1 just after `a`, stepped by `chDelta` on each character)
first reaches 0 at `r`. -/
def IsClosingAt (s : Str) (o c : Char) (a : Nat) (r : Int) : Prop :=
  FCSpec o c (s.drop (a + 1)) 1 ((a : Int) + 1) r

instance (s : Str) (o c : Char) (a : Nat) (r : Int) : Decidable (IsClosingAt s o c a r) := by
  unfold IsClosingAt
  infer_instance

/-- The parsed `Notify()` record of the C7 concrete decoration list. -/
def c7NotifyDecor : Decorator :=
  { src := ("Notify()").toList, name := ("Notify").toList, params := some [],
    descriptor := ("desc").toList }

/-- The parsed `Compute(fn)` record of the C7 concrete decoration list. -/
def c7ComputeDecor : Decorator :=
  { src := ("Compute(fn)").toList, name := ("Compute").toList,
    params := some (("fn").toList), descriptor := ("desc").toList }

/-- The rewritten decoration call of the C7 concrete decoration list. -/
def c7Repl : Str :=
  ("\n__decorate([Notify()], MyElement.prototype, \"field\", desc);").toList

/-! Generic list-index helper lemmas. -/

theorem takeGet {α : Type _} : ∀ (l : List α) (n i : Nat), i < n → (l.take n).get? i = l.get? i := by
  intro l
  induction l with
  | nil => intro n i _; simp
  | cons a tl ih =>
    intro n i hin
    cases n with
    | zero => omega
    | succ n =>
      cases i with
      | zero => simp
      | succ i => simpa using ih n i (by omega)

theorem dropGet {α : Type _} : ∀ (l : List α) (n i : Nat), (l.drop n).get? i = l.get? (n + i) := by
  intro l
  induction l with
  | nil => intro n i; simp
  | cons a tl ih =>
    intro n i
    cases n with
    | zero => simp
    | succ n => simp [Nat.succ_add, ih n i]

theorem headEq {α : Type _} (l : List α) : l.head? = l.get? 0 := by
  cases l <;> simp

theorem lastEq {α : Type _} : ∀ (l : List α), l.getLast? = l.get? (l.length - 1)
  | [] => rfl
  | [_] => rfl
  | a :: b :: tl => by
    rw [List.getLast?_cons_cons]
    simpa using lastEq (b :: tl)

theorem lastCons {α : Type _} (a : α) (l : List α) (h : l ≠ []) :
    (a :: l).getLast? = l.getLast? := by
  cases l with
  | nil => exact absurd rfl h
  | cons b tl => exact List.getLast?_cons_cons

/-! Lemmas about the closing-bracket walk `fcGo`. -/

theorem deltaSum_nil (o c : Char) : deltaSum o c [] = 0 := rfl

theorem deltaSum_cons (o c ch : Char) (l : Str) :
    deltaSum o c (ch :: l) = chDelta o c ch + deltaSum o c l := by
  simp [deltaSum]

theorem fcGo_ge (o c : Char) : ∀ (l : Str) (opened idx r : Int),
    fcGo o c l opened idx = some r → idx ≤ r := by
  intro l
  induction l with
  | nil => intro opened idx r h; simp [fcGo] at h
  | cons ch rest ih =>
    intro opened idx r h
    simp only [fcGo] at h
    split_ifs at h <;>
      first
        | (simp only [Option.some.injEq] at h; omega)
        | (have h2 := ih _ _ _ h; omega)

theorem fcGo_char (o c : Char) : ∀ (l : Str) (opened idx r : Int),
    fcGo o c l opened idx = some r →
    ∃ k : Nat, k < l.length ∧ r = idx + k ∧ l.get? k = some c := by
  intro l
  induction l with
  | nil => intro opened idx r h; simp [fcGo] at h
  | cons ch rest ih =>
    intro opened idx r h
    simp only [fcGo] at h
    split_ifs at h with h1 h2 h3
    · obtain ⟨k, hk, hr, hg⟩ := ih _ _ _ h
      refine ⟨k + 1, by simpa using hk, by omega, by simpa using hg⟩
    · simp only [Option.some.injEq] at h
      exact ⟨0, by simp, by omega, by simp [h2]⟩
    · obtain ⟨k, hk, hr, hg⟩ := ih _ _ _ h
      refine ⟨k + 1, by simpa using hk, by omega, by simpa using hg⟩
    · obtain ⟨k, hk, hr, hg⟩ := ih _ _ _ h
      refine ⟨k + 1, by simpa using hk, by omega, by simpa using hg⟩

theorem FCSpec_cons_shift (o c ch : Char) (rest : Str) (opened idx r : Int)
    (hne : opened + chDelta o c ch ≠ 0) :
    FCSpec o c (ch :: rest) opened idx r ↔
      FCSpec o c rest (opened + chDelta o c ch) (idx + 1) r := by
  constructor
  · rintro ⟨k, hk, hr, hsum, hmin⟩
    cases k with
    | zero =>
      exfalso
      apply hne
      simpa [deltaSum_cons, deltaSum_nil] using hsum
    | succ k =>
      refine ⟨k, by simpa using hk, by omega, ?_, ?_⟩
      · rw [List.take_succ_cons, deltaSum_cons] at hsum
        omega
      · intro j hj hcontra
        have h0 := hmin (j + 1) (by omega)
        rw [List.take_succ_cons, deltaSum_cons] at h0
        apply h0
        omega
  · rintro ⟨k, hk, hr, hsum, hmin⟩
    refine ⟨k + 1, by simpa using hk, by omega, ?_, ?_⟩
    · rw [List.take_succ_cons, deltaSum_cons]
      omega
    · intro j hj
      cases j with
      | zero => simpa [deltaSum_cons, deltaSum_nil] using hne
      | succ j =>
        intro hcontra
        have h0 := hmin j (by omega)
        rw [List.take_succ_cons, deltaSum_cons] at hcontra
        apply h0
        omega

theorem FCSpec_cons_close (o c ch : Char) (rest : Str) (opened idx r : Int)
    (hz : opened + chDelta o c ch = 0) :
    FCSpec o c (ch :: rest) opened idx r ↔ r = idx := by
  constructor
  · rintro ⟨k, hk, hr, hsum, hmin⟩
    cases k with
    | zero => omega
    | succ k =>
      exfalso
      apply hmin 0 (by omega)
      simpa [deltaSum_cons, deltaSum_nil] using hz
  · rintro rfl
    exact ⟨0, by simp, by omega, by simpa [deltaSum_cons, deltaSum_nil] using hz,
      fun j hj => absurd hj (by omega)⟩

theorem fcGo_some_iff (o c : Char) : ∀ (l : Str) (opened idx r : Int), 1 ≤ opened →
    (fcGo o c l opened idx = some r ↔ FCSpec o c l opened idx r) := by
  intro l
  induction l with
  | nil =>
    intro opened idx r _
    constructor
    · intro h; simp [fcGo] at h
    · rintro ⟨k, hk, _⟩; simp at hk
  | cons ch rest ih =>
    intro opened idx r hop
    by_cases h1 : ch = o
    · have hd : chDelta o c ch = 1 := by simp [chDelta, h1]
      rw [show fcGo o c (ch :: rest) opened idx = fcGo o c rest (opened + 1) (idx + 1) from
        by simp [fcGo, h1]]
      rw [FCSpec_cons_shift o c ch rest opened idx r (by rw [hd]; omega), hd]
      exact ih (opened + 1) (idx + 1) r (by omega)
    · by_cases h2 : ch = c
      · have hco : ¬c = o := fun hh => h1 (h2.trans hh)
        have hd : chDelta o c ch = -1 := by simp [chDelta, h2, hco]
        by_cases h3 : opened - 1 ≤ 0
        · rw [show fcGo o c (ch :: rest) opened idx = some idx from
            by simp [fcGo, h1, h2, h3, hco]]
          rw [FCSpec_cons_close o c ch rest opened idx r (by rw [hd]; omega)]
          simp [eq_comm]
        · rw [show fcGo o c (ch :: rest) opened idx = fcGo o c rest (opened - 1) (idx + 1) from
            by simp [fcGo, h1, h2, h3, hco]]
          rw [FCSpec_cons_shift o c ch rest opened idx r (by rw [hd]; omega), hd]
          have heq : opened + (-1) = opened - 1 := by omega
          rw [heq]
          exact ih (opened - 1) (idx + 1) r (by omega)
      · have hd : chDelta o c ch = 0 := by simp [chDelta, h1, h2]
        rw [show fcGo o c (ch :: rest) opened idx = fcGo o c rest opened (idx + 1) from
          by simp [fcGo, h1, h2]]
        rw [FCSpec_cons_shift o c ch rest opened idx r (by rw [hd]; omega), hd]
        have heq : opened + 0 = opened := by omega
        rw [heq]
        exact ih opened (idx + 1) r hop

theorem fcGo_none_iff (o c : Char) (l : Str) (opened idx : Int) (hop : 1 ≤ opened) :
    (fcGo o c l opened idx = none ↔ ∀ r : Int, ¬ FCSpec o c l opened idx r) := by
  constructor
  · intro h r hspec
    have h2 := (fcGo_some_iff o c l opened idx r hop).mpr hspec
    rw [h] at h2
    exact Option.noConfusion h2
  · intro h
    cases hf : fcGo o c l opened idx with
    | none => rfl
    | some r => exact absurd ((fcGo_some_iff o c l opened idx r hop).mp hf) (h r)

theorem dropInt_nat (s : Str) (a : Nat) : dropInt s ((a : Int) + 1) = s.drop (a + 1) := by
  have h1 : ¬((a : Int) + 1 < 0) := by omega
  have h2 : ((a : Int) + 1).toNat = a + 1 := by omega
  simp [dropInt, h1, h2]

theorem findClosing_ok_iff (s : Str) (off : Int) (o c : Char) (r : Int) :
    findClosing s off o c = .ok r ↔
      fcGo o c (dropInt s (off + 1)) 1 (off + 1) = some r := by
  unfold findClosing
  cases hf : fcGo o c (dropInt s (off + 1)) 1 (off + 1) with
  | none => simp
  | some r0 => simp

theorem findClosing_gt (s : Str) (off : Int) (o c : Char) (r : Int)
    (h : findClosing s off o c = .ok r) : off < r := by
  rw [findClosing_ok_iff] at h
  have := fcGo_ge o c _ _ _ _ h
  omega

theorem findClosing_char (s : Str) (off : Int) (o c : Char) (r : Int)
    (h : findClosing s off o c = .ok r) : charAt s r = some c := by
  rw [findClosing_ok_iff] at h
  obtain ⟨k, hk, hr, hg⟩ := fcGo_char o c _ _ _ _ h
  by_cases hneg : off + 1 < 0
  · simp only [dropInt] at hk
    rw [if_pos hneg] at hk
    simp at hk
  · simp only [dropInt] at hk hg
    rw [if_neg hneg] at hk hg
    rw [dropGet] at hg
    unfold charAt
    rw [if_neg (by omega)]
    have hcast : r.toNat = (off + 1).toNat + k := by omega
    rw [hcast]
    exact hg

theorem findClosing_error_iff (s : Str) (off : Int) (l : Nat) :
    ∀ (o c : Char), findClosing s off o c = .error l ↔
      (fcGo o c (dropInt s (off + 1)) 1 (off + 1) = none ∧
        l = 1 + (s.take off.toNat).countP (fun ch => ch = '\n')) := by
  intro o c
  unfold findClosing
  cases hf : fcGo o c (dropInt s (off + 1)) 1 (off + 1) with
  | none => simp [eq_comm]
  | some r0 => simp

/-- C6: the `findClosing` contract.  For every text, offset and bracket
pair, `findClosing` returns exactly the offset at which the nesting counter
(initialized to 1 just after the opening offset, incremented on the open
character, decremented on the close character) first reaches 0, and it
throws exactly when the text ends before the counter reaches 0, the error
carrying the 1-based line number of the opening offset obtained by counting
newline characters from the start of the text. -/
theorem findClosing_contract (s : Str) (o c : Char) (a : Nat) :
    (∀ r : Int, findClosing s (a : Int) o c = .ok r ↔ IsClosingAt s o c a r) ∧
    (∀ l : Nat, findClosing s (a : Int) o c = .error l ↔
      ((∀ r : Int, ¬ IsClosingAt s o c a r) ∧
        l = 1 + (s.take a).countP (fun ch => ch = '\n'))) := by
  have hwin : dropInt s ((a : Int) + 1) = s.drop (a + 1) := dropInt_nat s a
  have hTake : ((a : Int)).toNat = a := by omega
  constructor
  · intro r
    rw [findClosing_ok_iff, hwin]
    exact fcGo_some_iff o c (s.drop (a + 1)) 1 ((a : Int) + 1) r (by omega)
  · intro l
    rw [findClosing_error_iff, hwin, hTake]
    rw [fcGo_none_iff o c (s.drop (a + 1)) 1 ((a : Int) + 1) (by omega)]
    rfl

/-- Witness for C6 at the concrete text `(a)`, bracket pair `()`, offset 0:
the claim theorem transports the evaluated `findClosing` result to the
counter specification. -/
theorem findClosing_contract_witness :
    IsClosingAt (("(a)").toList) '(' ')' 0 2 ∧
      (1 + ((("(a)").toList).take 0).countP (fun ch => ch = '\n') = 1) :=
  ⟨((findClosing_contract (("(a)").toList) '(' ')' 0).1 2).mp (by decide), by decide⟩

/-! Unfolding lemmas for the Scanner loop. -/

theorem goToAuxF_none (s : Str) (t : Term) (fuel : Nat) (so prev : Option Char) (off : Int)
    (hc : charAt s off = none) : goToAuxF s t fuel so prev off = some (.ok (-1)) := by
  rw [goToAuxF, hc]

theorem goToAuxF_zero (s : Str) (t : Term) (so prev : Option Char) (off : Int)
    (ch : Char) (hc : charAt s off = some ch) : goToAuxF s t 0 so prev off = none := by
  rw [goToAuxF, hc]

theorem goToAuxF_succ (s : Str) (t : Term) (fuel : Nat) (so prev : Option Char) (off : Int)
    (ch : Char) (hc : charAt s off = some ch) :
    goToAuxF s t (fuel + 1) so prev off =
      (if so = none ∧ t.test ch then some (.ok off)
      else if ch = '{' then
        match findClosing s off '{' '}' with
        | .error e => some (.error e)
        | .ok r => goToAuxF s t fuel so (some ch) (r + 1)
      else if ch = '[' then
        match findClosing s off '[' ']' with
        | .error e => some (.error e)
        | .ok r => goToAuxF s t fuel so (some ch) (r + 1)
      else if ch = '<' then
        match findClosing s off '<' '>' with
        | .error e => some (.error e)
        | .ok r => goToAuxF s t fuel so (some ch) (r + 1)
      else if ch = '(' then
        match findClosing s off '(' ')' with
        | .error e => some (.error e)
        | .ok r => goToAuxF s t fuel so (some ch) (r + 1)
      else if ch = squoteCh ∨ ch = backtickCh ∨ ch = '"' then
        goToAuxF s t fuel (openStringJS so ch prev) (some ch) (off + 1)
      else goToAuxF s t fuel so (some ch) (off + 1)) := by
  rw [goToAuxF, hc]

theorem charAt_nonneg (s : Str) (off : Int) (ch : Char) (hc : charAt s off = some ch) :
    0 ≤ off := by
  by_contra hlt
  rw [charAt, if_pos (by omega)] at hc
  exact Option.noConfusion hc

theorem goToAux_ok_shape (s : Str) (t : Term) : ∀ (fuel : Nat) (so prev : Option Char)
    (off r : Int), goToAuxF s t fuel so prev off = some (.ok r) →
    r = -1 ∨ (off ≤ r ∧ ∃ ch, charAt s r = some ch ∧ t.test ch = true) := by
  intro fuel
  induction fuel with
  | zero =>
    intro so prev off r h
    cases hc : charAt s off with
    | none =>
      rw [goToAuxF_none s t 0 so prev off hc] at h
      simp only [Option.some.injEq, Except.ok.injEq] at h
      exact Or.inl h.symm
    | some ch =>
      rw [goToAuxF_zero s t so prev off ch hc] at h
      exact Option.noConfusion h
  | succ fuel ih =>
    intro so prev off r h
    cases hc : charAt s off with
    | none =>
      rw [goToAuxF_none s t _ so prev off hc] at h
      simp only [Option.some.injEq, Except.ok.injEq] at h
      exact Or.inl h.symm
    | some ch =>
      have hoff : 0 ≤ off := charAt_nonneg s off ch hc
      rw [goToAuxF_succ s t fuel so prev off ch hc] at h
      by_cases htest : so = none ∧ t.test ch
      · rw [if_pos htest] at h
        simp only [Option.some.injEq, Except.ok.injEq] at h
        right
        refine ⟨by omega, ch, by rw [← h]; exact hc, htest.2⟩
      · rw [if_neg htest] at h
        by_cases hb1 : ch = '{'
        · rw [if_pos hb1] at h
          cases hfc : findClosing s off '{' '}' with
          | error e => rw [hfc] at h; simp at h
          | ok rr =>
            rw [hfc] at h
            rcases ih _ _ _ _ h with h1 | ⟨h2, h3⟩
            · exact Or.inl h1
            · have := findClosing_gt s off _ _ _ hfc
              exact Or.inr ⟨by omega, h3⟩
        · rw [if_neg hb1] at h
          by_cases hb2 : ch = '['
          · rw [if_pos hb2] at h
            cases hfc : findClosing s off '[' ']' with
            | error e => rw [hfc] at h; simp at h
            | ok rr =>
              rw [hfc] at h
              rcases ih _ _ _ _ h with h1 | ⟨h2, h3⟩
              · exact Or.inl h1
              · have := findClosing_gt s off _ _ _ hfc
                exact Or.inr ⟨by omega, h3⟩
          · rw [if_neg hb2] at h
            by_cases hb3 : ch = '<'
            · rw [if_pos hb3] at h
              cases hfc : findClosing s off '<' '>' with
              | error e => rw [hfc] at h; simp at h
              | ok rr =>
                rw [hfc] at h
                rcases ih _ _ _ _ h with h1 | ⟨h2, h3⟩
                · exact Or.inl h1
                · have := findClosing_gt s off _ _ _ hfc
                  exact Or.inr ⟨by omega, h3⟩
            · rw [if_neg hb3] at h
              by_cases hb4 : ch = '('
              · rw [if_pos hb4] at h
                cases hfc : findClosing s off '(' ')' with
                | error e => rw [hfc] at h; simp at h
                | ok rr =>
                  rw [hfc] at h
                  rcases ih _ _ _ _ h with h1 | ⟨h2, h3⟩
                  · exact Or.inl h1
                  · have := findClosing_gt s off _ _ _ hfc
                    exact Or.inr ⟨by omega, h3⟩
              · rw [if_neg hb4] at h
                by_cases hb5 : ch = squoteCh ∨ ch = backtickCh ∨ ch = '"'
                · rw [if_pos hb5] at h
                  rcases ih _ _ _ _ h with h1 | ⟨h2, h3⟩
                  · exact Or.inl h1
                  · exact Or.inr ⟨by omega, h3⟩
                · rw [if_neg hb5] at h
                  rcases ih _ _ _ _ h with h1 | ⟨h2, h3⟩
                  · exact Or.inl h1
                  · exact Or.inr ⟨by omega, h3⟩

/-- C1 counterexample: scanning the text `"\x7b",` for a comma from offset
0.  The opening brace sits inside a string literal, yet `goTo` invokes the
Closing-Bracket Locator on it, which throws for lack of a matching close
(line 1); the section 4.1 Scanner contract (`goToSpec`), which skips string
interiors entirely, finds the comma at offset 3.  The claim, as stated,
is therefore false on this input. -/
theorem goTo_quoted_bracket_diverges_from_spec :
    goTo (("\"\x7b\",").toList) (Term.ch ',') 0 = some (.error 1) ∧
      goToSpec (("\"\x7b\",").toList) (Term.ch ',') 0 = some (.ok 3) := by
  constructor
  · decide
  · decide

/-- C1 amended: the target check of `goTo` fires only outside quoted
regions — outside quotes a matching character is returned at once, and
inside an open quote the scanner never returns the current offset even
when its character matches the term — but bracket characters invoke the
Closing-Bracket Locator regardless of the quote state: an opening brace
inside a string literal does trigger `findClosing`, and a failure of the
locator there propagates as the scan result. -/
theorem goTo_quote_handling_amended :
    (∀ (s : Str) (t : Term) (off : Int) (ch : Char),
      charAt s off = some ch → t.test ch = true → goTo s t off = some (.ok off)) ∧
    (∀ (s : Str) (t : Term) (fuel : Nat) (q : Char) (prev : Option Char) (off : Int)
      (ch : Char), charAt s off = some ch → t.test ch = true →
      goToAuxF s t fuel (some q) prev off ≠ some (.ok off)) ∧
    (∀ (s : Str) (t : Term) (fuel : Nat) (q : Char) (prev : Option Char) (off : Int)
      (e : Nat), charAt s off = some '{' → findClosing s off '{' '}' = .error e →
      goToAuxF s t (fuel + 1) (some q) prev off = some (.error e)) := by
  refine ⟨?_, ?_, ?_⟩
  · intro s t off ch hc htest
    show goToAuxF s t (s.length + 2) none none off = some (.ok off)
    rw [show s.length + 2 = (s.length + 1) + 1 from rfl]
    rw [goToAuxF_succ s t (s.length + 1) none none off ch hc]
    rw [if_pos ⟨rfl, htest⟩]
  · intro s t fuel q prev off ch hc htest h
    have hoff : 0 ≤ off := charAt_nonneg s off ch hc
    cases fuel with
    | zero =>
      rw [goToAuxF_zero s t (some q) prev off ch hc] at h
      exact Option.noConfusion h
    | succ fuel =>
      rw [goToAuxF_succ s t fuel (some q) prev off ch hc] at h
      rw [if_neg (by simp)] at h
      have hge : ∀ (so2 prev2 : Option Char) (off2 : Int), off + 1 ≤ off2 →
          goToAuxF s t fuel so2 prev2 off2 ≠ some (.ok off) := by
        intro so2 prev2 off2 hle hcontra
        rcases goToAux_ok_shape s t fuel so2 prev2 off2 off hcontra with h1 | ⟨h2, _⟩
        · omega
        · omega
      by_cases hb1 : ch = '{'
      · rw [if_pos hb1] at h
        cases hfc : findClosing s off '{' '}' with
        | error e => rw [hfc] at h; simp at h
        | ok rr =>
          rw [hfc] at h
          exact hge _ _ _ (by have := findClosing_gt s off _ _ _ hfc; omega) h
      · rw [if_neg hb1] at h
        by_cases hb2 : ch = '['
        · rw [if_pos hb2] at h
          cases hfc : findClosing s off '[' ']' with
          | error e => rw [hfc] at h; simp at h
          | ok rr =>
            rw [hfc] at h
            exact hge _ _ _ (by have := findClosing_gt s off _ _ _ hfc; omega) h
        · rw [if_neg hb2] at h
          by_cases hb3 : ch = '<'
          · rw [if_pos hb3] at h
            cases hfc : findClosing s off '<' '>' with
            | error e => rw [hfc] at h; simp at h
            | ok rr =>
              rw [hfc] at h
              exact hge _ _ _ (by have := findClosing_gt s off _ _ _ hfc; omega) h
          · rw [if_neg hb3] at h
            by_cases hb4 : ch = '('
            · rw [if_pos hb4] at h
              cases hfc : findClosing s off '(' ')' with
              | error e => rw [hfc] at h; simp at h
              | ok rr =>
                rw [hfc] at h
                exact hge _ _ _ (by have := findClosing_gt s off _ _ _ hfc; omega) h
            · rw [if_neg hb4] at h
              by_cases hb5 : ch = squoteCh ∨ ch = backtickCh ∨ ch = '"'
              · rw [if_pos hb5] at h
                exact hge _ _ _ (by omega) h
              · rw [if_neg hb5] at h
                exact hge _ _ _ (by omega) h
  · intro s t fuel q prev off e hc herr
    rw [goToAuxF_succ s t fuel (some q) prev off '{' hc]
    rw [if_neg (by simp), if_pos rfl, herr]

/-- Witness for C1: the three parts of the amended claim applied at
concrete inputs — a direct match outside quotes returns at once; inside an
open double quote a matching comma is not returned at its own offset; and
inside an open double quote an unmatched opening brace propagates the
locator error. -/
theorem goTo_quote_handling_amended_witness :
    goTo (("a").toList) (Term.ch 'a') 0 = some (.ok 0) ∧
      goToAuxF (("a,").toList) (Term.ch ',') 5 (some '"') none 1 ≠ some (.ok 1) ∧
      goToAuxF (("\"\x7b\",").toList) (Term.ch ',') (3 + 1) (some '"') (some '"') 1 =
        some (.error 1) :=
  ⟨goTo_quote_handling_amended.1 _ _ _ 'a' (by decide) (by decide),
   goTo_quote_handling_amended.2.1 _ _ 5 '"' none 1 ',' (by decide) (by decide),
   goTo_quote_handling_amended.2.2 _ _ 3 '"' (some '"') 1 1 (by decide) (by decide)⟩

theorem splitF_ok_shape (s : Str) (t : Term) (tr : Bool) : ∀ (fuel : Nat) (start : Int)
    (chunks : List Str), splitF s t tr fuel start = some (.ok chunks) →
    chunks ≠ [] ∧ ∃ k : Int, chunks.getLast? = some (applyTrim tr (jsSubstr s k)) := by
  intro fuel
  induction fuel with
  | zero => intro start chunks h; simp [splitF] at h
  | succ fuel ih =>
    intro start chunks h
    rw [splitF] at h
    cases hg : goTo s t start with
    | none => rw [hg] at h; exact Option.noConfusion h
    | some res =>
      cases res with
      | error e => rw [hg] at h; simp at h
      | ok comma =>
        rw [hg] at h
        simp only [] at h
        by_cases hm : comma = -1
        · rw [if_pos hm] at h
          simp only [Option.some.injEq, Except.ok.injEq] at h
          subst h
          exact ⟨by simp, start, by simp⟩
        · rw [if_neg hm] at h
          cases hs : splitF s t tr fuel (comma + 1) with
          | none => rw [hs] at h; exact Option.noConfusion h
          | some res2 =>
            cases res2 with
            | error e => rw [hs] at h; simp at h
            | ok rest =>
              rw [hs] at h
              simp only [Option.some.injEq, Except.ok.injEq] at h
              subst h
              obtain ⟨hne, k, hlast⟩ := ih (comma + 1) rest hs
              exact ⟨by simp, k, by rw [lastCons _ _ hne]; exact hlast⟩

/-- C9 counterexample: `split` on the text `(` with separator `,` does not
return a chunk list at all — the Scanner hands the unmatched parenthesis to
the Closing-Bracket Locator, whose `SyntaxError` (line 1) propagates out of
`split` — contradicting the claim that `split` returns at least one chunk
for every input. -/
theorem split_throwing_counterexample :
    split (("(").toList) (Term.ch ',') false = some (.error 1) := by decide

/-- C9 amended: whenever `split` does return a chunk list (no
`MismatchedDelimiter` error propagated from the Scanner), the list is
nonempty and its final chunk is an (optionally trimmed) suffix of the input
running to end-of-text; and when the Scanner finds no top-level occurrence
of the separator starting from offset 0, the result is exactly one chunk
equal to the whole (optionally trimmed) input. -/
theorem split_chunks_amended (s : Str) (t : Term) (tr : Bool) (chunks : List Str)
    (h : split s t tr = some (.ok chunks)) :
    (chunks ≠ [] ∧ ∃ k : Int, chunks.getLast? = some (applyTrim tr (jsSubstr s k))) ∧
    (goTo s t 0 = some (.ok (-1)) → chunks = [applyTrim tr s]) := by
  constructor
  · exact splitF_ok_shape s t tr (s.length + 2) 0 chunks h
  · intro hg
    unfold split at h
    rw [show s.length + 2 = (s.length + 1) + 1 from rfl, splitF, hg] at h
    simp only [] at h
    rw [if_pos trivial] at h
    simp only [Option.some.injEq, Except.ok.injEq] at h
    rw [← h]
    have : jsSubstr s 0 = s := by simp [jsSubstr]
    rw [this]

/-- Witness for C9 at the text `a(b,c)d` split on `,`: the only comma lies
inside parentheses, so the Scanner reports no top-level separator and the
split is the single whole chunk. -/
theorem split_chunks_amended_witness :
    (([("a(b,c)d").toList] : List Str) ≠ [] ∧
      ∃ k : Int, ([("a(b,c)d").toList] : List Str).getLast? =
        some (applyTrim false (jsSubstr (("a(b,c)d").toList) k))) ∧
    (goTo (("a(b,c)d").toList) (Term.ch ',') 0 = some (.ok (-1)) →
      [("a(b,c)d").toList] = [applyTrim false (("a(b,c)d").toList)]) :=
  split_chunks_amended (("a(b,c)d").toList) (Term.ch ',') false [("a(b,c)d").toList]
    (by decide)

theorem classifyGo_eq (anns : List Str) (desc : Str) : ∀ (l : List Str),
    classifyGo anns desc l =
      ((l.map (parseDecor desc)).filter (fun p => !(anns.contains p.name)),
       (l.map (parseDecor desc)).filter (fun p => anns.contains p.name)) := by
  intro l
  induction l with
  | nil => rfl
  | cons d rest ih =>
    rw [classifyGo, ih]
    by_cases hmem : (parseDecor desc d).name ∈ anns
    · simp [hmem, List.filter_cons]
    · simp [hmem, List.filter_cons]

/-- C7: field-level decorator extraction.  At the concrete decoration list
`Notify(), Compute(fn)` with `Compute` recognized, the callback files the
parsed `Notify()` entry in the retained-decorator list, the parsed
`Compute(fn)` entry in the recognized list, and re-emits the decoration
call with only the `Notify()` source text.  In general, every decorator of
the list is classified by exact membership of its bare name in the
recognized-name list, the rewritten text is empty exactly when no
decorator is retained, and otherwise it re-emits the retained source texts
in their original order. -/
theorem fieldDecorators_classification :
    (fieldDecoratorsCallback [("Compute").toList] (("Notify(), Compute(fn)").toList)
        (("MyElement.prototype").toList) (("field").toList) (("desc").toList) =
      some (.ok ([c7NotifyDecor], [c7ComputeDecor], c7Repl))) ∧
    (∀ (anns : List Str) (definition proto name desc : Str) (ds others : List Decorator)
      (repl : Str),
      fieldDecoratorsCallback anns definition proto name desc = some (.ok (ds, others, repl)) →
      (∃ decors : List Str, split (jsTrim definition) (Term.ch ',') true = some (.ok decors) ∧
        ds = (decors.map (parseDecor desc)).filter (fun p => !(anns.contains p.name)) ∧
        others = (decors.map (parseDecor desc)).filter (fun p => anns.contains p.name)) ∧
      (ds = [] → repl = []) ∧
      (ds ≠ [] → repl = decorTemplate (ds.map (fun d => d.src)) proto name desc)) := by
  constructor
  · decide
  · intro anns definition proto name desc ds others repl h
    unfold fieldDecoratorsCallback at h
    cases hs : split (jsTrim definition) (Term.ch ',') true with
    | none => rw [hs] at h; exact Option.noConfusion h
    | some res =>
      cases res with
      | error e => rw [hs] at h; simp at h
      | ok decors =>
        rw [hs] at h
        simp only [] at h
        rw [classifyGo_eq anns desc decors] at h
        simp only [Option.some.injEq, Except.ok.injEq, Prod.mk.injEq] at h
        obtain ⟨hds, hot, hrepl⟩ := h
        refine ⟨⟨decors, rfl, hds.symm, hot.symm⟩, ?_, ?_⟩
        · intro hnil
          rw [← hrepl]
          rw [← hds] at hnil
          rw [hnil]
          rfl
        · intro hne
          rw [← hrepl, ← hds]
          rw [← hds] at hne
          rw [if_neg (by simpa [List.isEmpty_iff] using hne)]

/-- Witness for C7: the general classification part applied at the concrete
decoration list of the first part. -/
theorem fieldDecorators_classification_witness :
    ((∃ decors : List Str,
        split (jsTrim (("Notify(), Compute(fn)").toList)) (Term.ch ',') true =
          some (.ok decors) ∧
        [c7NotifyDecor] = (decors.map (parseDecor (("desc").toList))).filter
            (fun p => !(([("Compute").toList] : List Str).contains p.name)) ∧
        [c7ComputeDecor] = (decors.map (parseDecor (("desc").toList))).filter
            (fun p => ([("Compute").toList] : List Str).contains p.name)) ∧
      (([c7NotifyDecor] : List Decorator) = [] → c7Repl = []) ∧
      (([c7NotifyDecor] : List Decorator) ≠ [] →
        c7Repl = decorTemplate ([c7NotifyDecor].map (fun d => d.src))
          (("MyElement.prototype").toList) (("field").toList) (("desc").toList))) :=
  fieldDecorators_classification.2 [("Compute").toList] (("Notify(), Compute(fn)").toList)
    (("MyElement.prototype").toList) (("field").toList) (("desc").toList)
    [c7NotifyDecor] [c7ComputeDecor] c7Repl (by decide)

/-- C2 counterexample: on the exact input `string` (no trailing
terminator), `getType` reaches end-of-text without ever recording a member
type, so it returns a null type with end cursor 6 — not the category
`String` required by the reduction table. -/
theorem getType_reduction_table_counterexample :
    getType (("string").toList) 0 = some (.ok (none, 6)) ∧
      (none : Option Str) ≠ some (("String").toList) := by decide

/-- C2 amended: the reduction table of the Type Resolver holds in the
following corrected form.  On the exact unterminated inputs, `string`
resolves to null (a member is only recorded when a terminator or separator
is reached), `string | null` to `String`, `number | string` to `Number`
(the member after the last separator is dropped at end-of-text, so no
conflict arises), `\x7b a: number \x7d` to `Object`, `string[]` to
`Array`, `Foo<Bar>` to `Foo`, and `void` to null.  With a `;` terminator
appended, `string;` resolves to `String`, `number | string;` to `Object`,
and `void;` resolves to `void` itself (not null).  Whenever the reduced
result is one of the four primitive keyword names, the returned category
capitalizes its first letter. -/
theorem getType_reduction_table_amended :
    getType (("string").toList) 0 = some (.ok (none, 6)) ∧
    getType (("string;").toList) 0 = some (.ok (some (("String").toList), 6)) ∧
    getType (("string | null").toList) 0 = some (.ok (some (("String").toList), 13)) ∧
    getType (("number | string").toList) 0 = some (.ok (some (("Number").toList), 15)) ∧
    getType (("number | string;").toList) 0 = some (.ok (some (("Object").toList), 15)) ∧
    getType (("\x7b a: number \x7d").toList) 0 = some (.ok (some (("Object").toList), 13)) ∧
    getType (("string[]").toList) 0 = some (.ok (some (("Array").toList), 8)) ∧
    getType (("Foo<Bar>").toList) 0 = some (.ok (some (("Foo").toList), 8)) ∧
    getType (("void").toList) 0 = some (.ok (none, 4)) ∧
    getType (("void;").toList) 0 = some (.ok (some (("void").toList), 4)) ∧
    finalizeType (some (("boolean").toList)) = some (("Boolean").toList) ∧
    finalizeType (some (("number").toList)) = some (("Number").toList) ∧
    finalizeType (some (("string").toList)) = some (("String").toList) ∧
    finalizeType (some (("object").toList)) = some (("Object").toList) := by
  exact ⟨by decide, by decide, by decide, by decide, by decide, by decide, by decide,
    by decide, by decide, by decide, by decide, by decide, by decide, by decide⟩

/-- C3 counterexample: the reducer of `getType` checks for a missing
running result before it checks for ignored keywords, so the ignored
keyword `void` as first (and only) member becomes the running result: the
reduction of `[void]` is `void`, not the unchanged initial null, and
`getType` on `void;` correspondingly returns the type `void`. -/
theorem typeReduce_ignored_first_counterexample :
    typeReduce [("void").toList] = some (("void").toList) ∧
      getType (("void;").toList) 0 = some (.ok (some (("void").toList), 4)) ∧
      some (("void").toList) ≠ (none : Option Str) := by decide

theorem typeReduceStep_ignored (m : Str) (hobj : m ≠ ("Object").toList)
    (hig : IS_IGNORED m = true) (acc : Str) (hacc : acc ≠ []) :
    typeReduceStep (some acc) m = some acc := by
  unfold typeReduceStep
  have h1 : ¬(m = ("Object").toList ∨ some acc = none ∨ some acc = some ([] : Str)) := by
    push_neg
    exact ⟨hobj, by simp, by simp [hacc]⟩
  rw [if_neg h1, if_pos hig]

/-- C3 amended: an ignored keyword (`void`, `null`, `undefined`, `never`)
leaves the running result of the member-type reduction unchanged only when
the running result is already a nonempty type; when the running result is
still the initial null (the ignored keyword is the first member), the
keyword itself becomes the running result. -/
theorem typeReduce_ignored_amended :
    ∀ m : Str, m ∈ ([("void").toList, ("null").toList, ("undefined").toList,
        ("never").toList] : List Str) →
      (∀ acc : Str, acc ≠ [] → typeReduceStep (some acc) m = some acc) ∧
      typeReduceStep none m = some m := by
  intro m hm
  simp only [List.mem_cons, List.not_mem_nil, or_false] at hm
  rcases hm with rfl | rfl | rfl | rfl
  · exact ⟨fun acc hacc => typeReduceStep_ignored _ (by decide) (by decide) acc hacc, by decide⟩
  · exact ⟨fun acc hacc => typeReduceStep_ignored _ (by decide) (by decide) acc hacc, by decide⟩
  · exact ⟨fun acc hacc => typeReduceStep_ignored _ (by decide) (by decide) acc hacc, by decide⟩
  · exact ⟨fun acc hacc => typeReduceStep_ignored _ (by decide) (by decide) acc hacc, by decide⟩

/-- Witness for C3: the amended claim applied at the ignored keyword
`null` with the nonempty running result `string`, and at the empty running
state. -/
theorem typeReduce_ignored_amended_witness :
    typeReduceStep (some (("string").toList)) (("null").toList) =
      some (("string").toList) ∧
    typeReduceStep none (("null").toList) = some (("null").toList) :=
  ⟨(typeReduce_ignored_amended (("null").toList) (by decide)).1 (("string").toList)
      (by decide),
   (typeReduce_ignored_amended (("null").toList) (by decide)).2⟩

/-- C4: on a type expression whose `<` has no matching `>`, `getType` does
not report the documented soft failure (null type with a not-found end
offset): `findClosing` throws, so the call aborts with the
`MismatchedDelimiter` error of line 1, and the source branch that would
return the null-type result is unreachable.  The evaluation at the failing
input `Foo<Bar` exhibits the thrown error and its difference from the
documented soft result. -/
theorem getType_unmatched_generic_throws :
    getType (("Foo<Bar").toList) 0 = some (.error 1) ∧
      (some (Except.error 1) : Option (Except Nat (Option Str × Int))) ≠
        some (.ok (none, -1)) := by decide

/-- C5 counterexample: the header pattern of `parseDTS` requires a
whitespace character immediately before the literal `class`, so on exactly
the declaration text `class A extends B \x7b x: string; f(y: number):
boolean; \x7d` — which starts at offset 0 with no preceding whitespace —
no header matches and `parseDTS` fails with the no-class-found error,
contrary to the claim. -/
theorem parseDTS_exact_input_noClassFound :
    parseDTS (("class A extends B \x7b x: string; f(y: number): boolean; \x7d").toList) =
      some (.error .noClassFound) := by decide

/-- C5 amended: with a single leading space added (so the header pattern
can match), `parseDTS` succeeds and returns className `A`, exactly one
property (`x` of type `String`) and exactly one method (`f` with the one
parameter `y` of type `Number` and return type `Boolean`); the parent is
captured verbatim up to the opening brace and is therefore the text `B `
with its trailing space, not `B`. -/
theorem parseDTS_leading_space_amended :
    parseDTS ((" class A extends B \x7b x: string; f(y: number): boolean; \x7d").toList) =
      some (.ok
        { className := ("A").toList
          parent := some (("B ").toList)
          properties :=
            [{ name := ("x").toList
               modifiers := []
               params := none
               type := some (("String").toList) }]
          methods :=
            [{ name := ("f").toList
               modifiers := []
               params := some [{ name := ("y").toList
                                 type := some (("Number").toList) }]
               type := some (("Boolean").toList) }] }) := by decide

/-- C10: the Closing-Bracket Locator on its own performs no quote
tracking.  Scanning `\x7b x = "\x7d" \x7d` from offset 0 for the brace
pair, `findClosing` returns offset 7 — the close-brace character inside
the string literal — although the textual partner of the opening brace is
the brace at offset 10. -/
theorem findClosing_no_quote_tracking :
    findClosing (("\x7b x = \"\x7d\" \x7d").toList) 0 '{' '}' = .ok 7 ∧
      charAt (("\x7b x = \"\x7d\" \x7d").toList) 10 = some '}' ∧ (7 : Int) ≠ 10 := by
  decide

/-- C8 counterexample: in the native-class source `class A \x7b f(y) \x7b
return y; \x7d \x7d`, the method pattern for `f` matches at offset 10 with
boilerplate `f`, and the captured entry is the text from just after the
name through the matching close brace: `(y) \x7b return y; \x7d`.  It
contains the parameter list before the opening brace, so it is not the
brace-delimited body `\x7b return y; \x7d` required by the claim. -/
theorem methodBodies_include_params_counterexample :
    methodBodyCapture (("class A \x7b f(y) \x7b return y; \x7d \x7d").toList)
        (("f").toList) 10 = .ok (("(y) \x7b return y; \x7d").toList) ∧
      (("(y) \x7b return y; \x7d").toList ≠ ("\x7b return y; \x7d").toList) := by decide

theorem getq_lt {α : Type _} : ∀ (l : List α) (n : Nat) (x : α),
    l.get? n = some x → n < l.length := by
  intro l
  induction l with
  | nil => intro n x h; simp at h
  | cons a t ih =>
    intro n x h
    cases n with
    | zero => simp
    | succ n =>
      have := ih n x (by simpa using h)
      simpa using this

theorem idxGo_spec (c : Char) : ∀ (l : Str) (i : Nat), idxGo c l i ≠ -1 →
    ∃ k : Nat, idxGo c l i = ((i + k : Nat) : Int) ∧ l.get? k = some c := by
  intro l
  induction l with
  | nil => intro i h; simp [idxGo] at h
  | cons ch rest ih =>
    intro i h
    by_cases hc : ch = c
    · exact ⟨0, by simp [idxGo, hc], by simp [hc]⟩
    · have h2 : idxGo c (ch :: rest) i = idxGo c rest (i + 1) := by simp [idxGo, hc]
      rw [h2] at h ⊢
      obtain ⟨k, hk, hg⟩ := ih (i + 1) h
      refine ⟨k + 1, by rw [hk]; congr 1; omega, by simpa using hg⟩

theorem jsIndexOfChar_spec (s : Str) (c : Char) (fromIdx : Int)
    (h : jsIndexOfChar s c fromIdx ≠ -1) :
    ∃ k : Nat, jsIndexOfChar s c fromIdx = ((fromIdx.toNat + k : Nat) : Int) ∧
      s.get? (fromIdx.toNat + k) = some c := by
  unfold jsIndexOfChar at h ⊢
  obtain ⟨k, hk, hg⟩ := idxGo_spec c (s.drop fromIdx.toNat) fromIdx.toNat h
  rw [dropGet] at hg
  exact ⟨k, hk, hg⟩

theorem jsTrim_of_ends (l : Str) (x y : Char) (hh : l.head? = some x)
    (hx : isJsWs x = false) (hl : l.getLast? = some y) (hy : isJsWs y = false) :
    jsTrim l = l := by
  cases l with
  | nil => exact Option.noConfusion hh
  | cons a t =>
    have hax : a = x := by injection hh
    subst hax
    unfold jsTrim
    rw [List.dropWhile_cons, if_neg (by simp [hx])]
    cases hrev : (a :: t).reverse with
    | nil => exact absurd hrev (by simp)
    | cons z zs =>
      have hz : z = y := by
        have h2 := List.head?_reverse (a :: t)
        rw [hrev, hl] at h2
        injection h2
      rw [List.dropWhile_cons, if_neg (by simp [hz, hy])]
      rw [← hrev, List.reverse_reverse]

/-- C8 amended: the `methodBodies` entry captured by the method-body
callback is the trimmed text from just after the matched boilerplate
through the matching close brace.  When the character just after the
boilerplate is the `(` opening the parameter list (as it is under both
conventions, since the patterns match the name or prototype boilerplate
followed by a parenthesized parameter list) and a `\x7b` exists after it,
the captured entry begins with that `(` — the parameter list is included —
and ends with the matching `\x7d`. -/
theorem methodBodies_capture_amended (src boiler : Str) (idx : Int) (b : Str)
    (hpar : charAt src (idx + (boiler.length : Int)) = some '(')
    (hbr : jsIndexOfChar src '{' (idx + (boiler.length : Int)) ≠ -1)
    (h : methodBodyCapture src boiler idx = .ok b) :
    b.head? = some '(' ∧ b.getLast? = some '}' := by
  set a : Int := idx + (boiler.length : Int) with ha
  have ha0 : 0 ≤ a := charAt_nonneg src a '(' hpar
  have haN : src.get? a.toNat = some '(' := by
    rw [charAt, if_neg (by omega)] at hpar
    exact hpar
  have haLt : a.toNat < src.length := getq_lt src a.toNat '(' haN
  obtain ⟨k1, hbpEq, hbpGet⟩ := jsIndexOfChar_spec src '{' a hbr
  unfold methodBodyCapture at h
  cases hfc : findClosing src (jsIndexOfChar src '{' a) '{' '}' with
  | error e => rw [hfc] at h; exact Except.noConfusion h
  | ok endIdx =>
    rw [hfc] at h
    simp only [Except.ok.injEq] at h
    have hgt := findClosing_gt src (jsIndexOfChar src '{' a) '{' '}' endIdx hfc
    have hcc := findClosing_char src (jsIndexOfChar src '{' a) '{' '}' endIdx hfc
    have he0 : 0 ≤ endIdx := charAt_nonneg src endIdx '}' hcc
    have heN : src.get? endIdx.toNat = some '}' := by
      rw [charAt, if_neg (by omega)] at hcc
      exact hcc
    have heLt : endIdx.toNat < src.length := getq_lt src endIdx.toNat '}' heN
    have haE : a.toNat < endIdx.toNat := by omega
    have hslice : jsSlice src a (endIdx + 1) =
        (src.take (endIdx.toNat + 1)).drop a.toNat := by
      unfold jsSlice jsSliceIdx
      rw [if_neg (by omega), if_neg (by omega)]
      have h1 : (endIdx + 1).toNat = endIdx.toNat + 1 := by omega
      rw [h1, Nat.min_eq_left (by omega), Nat.min_eq_left (by omega)]
    have hlen : ((src.take (endIdx.toNat + 1)).drop a.toNat).length =
        endIdx.toNat + 1 - a.toNat := by
      rw [List.length_drop, List.length_take, Nat.min_eq_left (by omega)]
    have hhead : ((src.take (endIdx.toNat + 1)).drop a.toNat).head? = some '(' := by
      rw [headEq, dropGet, Nat.add_zero, takeGet _ _ _ (by omega)]
      exact haN
    have hlast : ((src.take (endIdx.toNat + 1)).drop a.toNat).getLast? = some '}' := by
      rw [lastEq, hlen, dropGet]
      have h2 : a.toNat + (endIdx.toNat + 1 - a.toNat - 1) = endIdx.toNat := by omega
      rw [h2, takeGet _ _ _ (by omega)]
      exact heN
    have hts : jsTrim (jsSlice src a (endIdx + 1)) = jsSlice src a (endIdx + 1) := by
      rw [hslice]
      exact jsTrim_of_ends _ '(' '}' hhead (by decide) hlast (by decide)
    constructor
    · rw [← h, hts, hslice]
      exact hhead
    · rw [← h, hts, hslice]
      exact hlast

/-- Witness for C8 at the concrete native-class source: the matched method
`f` at offset 10 has its parameter list right after the name, and the
captured entry indeed starts with `(` and ends with `\x7d`. -/
theorem methodBodies_capture_amended_witness :
    (("(y) \x7b return y; \x7d").toList).head? = some '(' ∧
      (("(y) \x7b return y; \x7d").toList).getLast? = some '}' :=
  methodBodies_capture_amended (("class A \x7b f(y) \x7b return y; \x7d \x7d").toList)
    (("f").toList) 10 (("(y) \x7b return y; \x7d").toList)
    (by decide) (by decide) (by decide)
